import Mathlib

/-!
Verification of the GHDUSDT market-maker bot (`bot/mm_bot.py`).

The bot's arithmetic is embedded over `ℚ`: the Python code routes every
rounding operation through `Decimal` with `ROUND_DOWN` (truncation toward
zero), which we model exactly as integer truncation of the quotient by the
step.  Stateful methods become pure state-passing functions, and the two
fallible exchange calls (cancel, place) are oracles supplied as functions.
-/

namespace MMVerify

/-- Truncation of a rational toward zero, the semantics of
`Decimal.quantize(0, ROUND_DOWN)`. -/
def truncQ (x : ℚ) : ℤ := if 0 ≤ x then ⌊x⌋ else ⌈x⌉

/-- The function `roundStep st x` rounds `x` down (toward zero) to a multiple of the
step `st`: the common core of `round_price` and `round_qty`. -/
def roundStep (st x : ℚ) : ℚ := (truncQ (x / st) : ℚ) * st

/-- Configuration surface of the bot (the module-level env constants). -/
structure Config where
  target_volume_share : ℚ
  volume_window : ℚ
  spread_pct : ℚ
  max_order_notional : ℚ
  min_order_notional : ℚ
  tick_size : ℚ
  qty_step : ℚ
  max_position : ℚ
deriving DecidableEq

/-- The default configuration from the env-var defaults in `mm_bot.py`:
TARGET_VOLUME_SHARE=0.05, VOLUME_WINDOW=300, SPREAD_PCT=0.002,
MAX_ORDER_NOTIONAL=1000, MIN_ORDER_NOTIONAL=5, TICK_SIZE=0.0001,
QTY_STEP=0.001, MAX_POSITION=1000. -/
def defaultConfig : Config :=
  ⟨1/20, 300, 1/500, 1000, 5, 1/10000, 1/1000, 1000⟩

/-- Function `round_price` from `mm_bot.py`: floor-to-tick (truncation toward zero). -/
def round_price (cfg : Config) (p : ℚ) : ℚ := roundStep cfg.tick_size p

/-- Function `round_qty` from `mm_bot.py`: floor-to-lot-step (truncation toward zero). -/
def round_qty (cfg : Config) (q : ℚ) : ℚ := roundStep cfg.qty_step q

theorem truncQ_intCast (n : ℤ) : truncQ (n : ℚ) = n := by
  unfold truncQ
  split
  · exact Int.floor_intCast n
  · exact Int.ceil_intCast n

theorem truncQ_zero : truncQ 0 = 0 := by
  simpa using truncQ_intCast 0

theorem roundStep_idem (st x : ℚ) :
    roundStep st (roundStep st x) = roundStep st x := by
  by_cases hst : st = 0
  · subst hst
    simp [roundStep]
  · unfold roundStep
    rw [mul_div_cancel_right₀ _ hst, truncQ_intCast]

theorem roundStep_zero (st : ℚ) : roundStep st 0 = 0 := by
  simp [roundStep, truncQ_zero]

theorem roundStep_le (st x : ℚ) (hst : 0 < st) (hx : 0 ≤ x) :
    roundStep st x ≤ x := by
  have hq : 0 ≤ x / st := div_nonneg hx hst.le
  have hfl : (⌊x / st⌋ : ℚ) ≤ x / st := Int.floor_le _
  have : (⌊x / st⌋ : ℚ) * st ≤ (x / st) * st :=
    mul_le_mul_of_nonneg_right hfl hst.le
  rw [div_mul_cancel₀ _ hst.ne'] at this
  simpa [roundStep, truncQ, hq] using this

theorem roundStep_nonneg (st x : ℚ) (hst : 0 ≤ st) (hx : 0 ≤ x) :
    0 ≤ roundStep st x := by
  have hq : 0 ≤ x / st := div_nonneg hx hst
  have hfl : (0 : ℚ) ≤ (⌊x / st⌋ : ℚ) := by
    exact_mod_cast Int.floor_nonneg.mpr hq
  have : (0 : ℚ) ≤ (⌊x / st⌋ : ℚ) * st := mul_nonneg hfl hst
  simpa [roundStep, truncQ, hq] using this

theorem roundStep_nonpos (st x : ℚ) (hst : 0 ≤ st) (hx : x ≤ 0) :
    roundStep st x ≤ 0 := by
  rcases eq_or_lt_of_le hst with hst0 | hstpos
  · rw [← hst0]
    simp [roundStep]
  · have hq : x / st ≤ 0 := div_nonpos_of_nonpos_of_nonneg hx hst
    unfold roundStep truncQ
    rcases le_or_lt 0 (x / st) with h0 | h0
    · have hq0 : x / st = 0 := le_antisymm hq h0
      simp [hq0]
    · have hceil : (⌈x / st⌉ : ℤ) ≤ 0 := by
        rw [Int.ceil_le]
        exact_mod_cast hq
      have hceilQ : ((⌈x / st⌉ : ℤ) : ℚ) ≤ 0 := by exact_mod_cast hceil
      have := mul_nonpos_of_nonpos_of_nonneg hceilQ hstpos.le
      simpa [not_le.mpr h0] using this

/-- The rounded value is a fixed point even under `max 0`. -/
theorem roundStep_max0_fixed (st x : ℚ) :
    roundStep st (max 0 (roundStep st x)) = max 0 (roundStep st x) := by
  rcases le_total 0 (roundStep st x) with h | h
  · rw [max_eq_right h, roundStep_idem]
  · rw [max_eq_left h, roundStep_zero]

/-- C8: `round_price` and `round_qty` (floor-to-tick, floor-to-lot-step)
are idempotent for every rational input and every configuration. -/
theorem round_price_round_qty_idem (cfg : Config) (x : ℚ) :
    round_price cfg (round_price cfg x) = round_price cfg x ∧
    round_qty cfg (round_qty cfg x) = round_qty cfg x :=
  ⟨roundStep_idem cfg.tick_size x, roundStep_idem cfg.qty_step x⟩

/-! ### The rolling volume window (`RollingVolume` in `mm_bot.py`) -/

/-- A trade record as pushed into the window: `(ts, qty, price)`. -/
structure Trade where
  ts : ℚ
  qty : ℚ
  price : ℚ
deriving DecidableEq

/-- State of `RollingVolume`: the deque of retained trades (front = head of
the list) and the running sum `base_volume`. -/
structure RollingVolume where
  window : ℚ
  trades : List Trade
  base_volume : ℚ
deriving DecidableEq

/-- Constructor `RollingVolume.__init__`. -/
def RollingVolume.init (w : ℚ) : RollingVolume := ⟨w, [], 0⟩

/-- The `while self.trades and self.trades[0][0] < cutoff` loop of
`_evict_old`, popping from the front and decrementing the running sum. -/
def evictLoop (w now : ℚ) : List Trade → ℚ → List Trade × ℚ
  | [], v => ([], v)
  | t :: rest, v =>
    if t.ts < now - w then evictLoop w now rest (v - t.qty)
    else (t :: rest, v)

/-- Method `RollingVolume._evict_old`. -/
def RollingVolume.evict_old (s : RollingVolume) (now : ℚ) : RollingVolume :=
  let r := evictLoop s.window now s.trades s.base_volume
  ⟨s.window, r.1, r.2⟩

/-- Method `RollingVolume.add_trade`: append the trade, add its quantity to the
running sum, then evict entries older than `ts - window`. -/
def RollingVolume.add_trade (s : RollingVolume) (ts qty price : ℚ) :
    RollingVolume :=
  RollingVolume.evict_old
    ⟨s.window, s.trades ++ [⟨ts, qty, price⟩], s.base_volume + qty⟩ ts

/-- Method `RollingVolume.total_volume`: returns the stored running sum. -/
def RollingVolume.total_volume (s : RollingVolume) : ℚ := s.base_volume

/-- Feed a whole list of trades through `add_trade`, in order. -/
def addTrades (s : RollingVolume) (l : List Trade) : RollingVolume :=
  l.foldl (fun a t => a.add_trade t.ts t.qty t.price) s

/-- Sum of the quantities of a list of trades. -/
def qtySum (l : List Trade) : ℚ := (l.map Trade.qty).sum

/-- Timestamps of the list are non-decreasing. -/
abbrev tsSorted (l : List Trade) : Prop :=
  l.Pairwise (fun a b => a.ts ≤ b.ts)

/-- Timestamp of the most recently appended trade (0 for the empty list). -/
def latestTs (l : List Trade) : ℚ := (l.getLastD ⟨0, 0, 0⟩).ts

@[simp] theorem qtySum_nil : qtySum [] = 0 := rfl

@[simp] theorem qtySum_cons (t : Trade) (l : List Trade) :
    qtySum (t :: l) = t.qty + qtySum l := rfl

theorem qtySum_append (l₁ l₂ : List Trade) :
    qtySum (l₁ ++ l₂) = qtySum l₁ + qtySum l₂ := by
  simp [qtySum]

theorem getLastD_cons_pair (x y : Trade) (l : List Trade) :
    (x :: l).getLastD y = l.getLastD x := by
  cases l <;> simp [List.getLastD]

theorem getLastD_cons_mem (l : List Trade) (x d : Trade) :
    (x :: l).getLastD d ∈ x :: l := by
  induction l generalizing x with
  | nil => simp [List.getLastD]
  | cons y rest ih =>
    rw [getLastD_cons_pair]
    exact List.mem_cons_of_mem x (ih y)

theorem latestTs_cons_cons (t t' : Trade) (rest : List Trade) :
    latestTs (t :: t' :: rest) = latestTs (t' :: rest) := by
  unfold latestTs
  rw [getLastD_cons_pair, getLastD_cons_pair, getLastD_cons_pair]

theorem evictLoop_eq (w now : ℚ) (l : List Trade) (v : ℚ) :
    evictLoop w now l v =
      (l.dropWhile (fun t => decide (t.ts < now - w)),
       v - qtySum (l.takeWhile (fun t => decide (t.ts < now - w)))) := by
  induction l generalizing v with
  | nil => simp [evictLoop]
  | cons t rest ih =>
    by_cases h : t.ts < now - w
    · simp only [evictLoop, if_pos h, ih (v - t.qty)]
      simp [List.dropWhile_cons, List.takeWhile_cons, h, sub_sub]
    · simp [evictLoop, if_neg h, List.dropWhile_cons, List.takeWhile_cons, h]

theorem dropWhile_eq_filter_of_sorted (c : ℚ) (l : List Trade)
    (h : tsSorted l) :
    l.dropWhile (fun t => decide (t.ts < c)) =
      l.filter (fun t => decide (c ≤ t.ts)) := by
  induction l with
  | nil => rfl
  | cons t rest ih =>
    have h : List.Pairwise (fun a b => a.ts ≤ b.ts) (t :: rest) := h
    rw [List.pairwise_cons] at h
    by_cases ht : t.ts < c
    · have hnot : ¬ (c ≤ t.ts) := not_le.mpr ht
      simp only [List.dropWhile_cons, List.filter_cons]
      simp [ht, hnot, ih h.2]
    · have hc : c ≤ t.ts := not_lt.mp ht
      have hrest : rest.filter (fun t => decide (c ≤ t.ts)) = rest := by
        apply List.filter_eq_self.mpr
        intro b hb
        exact decide_eq_true (le_trans hc (h.1 b hb))
      simp only [List.dropWhile_cons, List.filter_cons]
      simp [ht, hc, hrest]

theorem add_trade_spec (s : RollingVolume) (t : Trade)
    (hs : tsSorted (s.trades ++ [t]))
    (hb : s.base_volume = qtySum s.trades) :
    s.add_trade t.ts t.qty t.price =
      ⟨s.window,
       (s.trades ++ [t]).filter (fun u => decide (t.ts - s.window ≤ u.ts)),
       qtySum ((s.trades ++ [t]).filter
         (fun u => decide (t.ts - s.window ≤ u.ts)))⟩ := by
  have hteta : (⟨t.ts, t.qty, t.price⟩ : Trade) = t := rfl
  unfold RollingVolume.add_trade RollingVolume.evict_old
  rw [hteta, evictLoop_eq]
  have hdrop := dropWhile_eq_filter_of_sorted (t.ts - s.window)
    (s.trades ++ [t]) hs
  have hsum : qtySum (s.trades ++ [t]) =
      qtySum ((s.trades ++ [t]).takeWhile
        (fun u => decide (u.ts < t.ts - s.window))) +
      qtySum ((s.trades ++ [t]).dropWhile
        (fun u => decide (u.ts < t.ts - s.window))) := by
    conv_lhs => rw [← List.takeWhile_append_dropWhile
      (fun u => decide (u.ts < t.ts - s.window)) (s.trades ++ [t])]
    exact qtySum_append _ _
  have hball : s.base_volume + t.qty = qtySum (s.trades ++ [t]) := by
    rw [qtySum_append, hb, qtySum_cons, qtySum_nil]
    ring
  simp only [RollingVolume.mk.injEq, true_and]
  constructor
  · exact hdrop
  · rw [hdrop] at hsum
    rw [← hball] at hsum
    linarith

theorem addTrades_spec (l : List Trade) :
    ∀ s : RollingVolume, l ≠ [] →
      tsSorted (s.trades ++ l) → s.base_volume = qtySum s.trades →
      addTrades s l =
        ⟨s.window,
         (s.trades ++ l).filter (fun u => decide (latestTs l - s.window ≤ u.ts)),
         qtySum ((s.trades ++ l).filter
           (fun u => decide (latestTs l - s.window ≤ u.ts)))⟩ := by
  induction l with
  | nil => intro s hne _ _; exact absurd rfl hne
  | cons t l2 ih =>
    intro s _ hs hb
    cases l2 with
    | nil =>
      have h1 : addTrades s [t] = s.add_trade t.ts t.qty t.price := rfl
      have h2 : latestTs [t] = t.ts := rfl
      rw [h1, h2, add_trade_spec s t hs hb]
    | cons t2 rest =>
      have hsplitEq : s.trades ++ t :: t2 :: rest =
          (s.trades ++ [t]) ++ (t2 :: rest) := by simp
      have hsAll : List.Pairwise (fun a b => a.ts ≤ b.ts)
          ((s.trades ++ [t]) ++ (t2 :: rest)) := by
        rw [← hsplitEq]; exact hs
      have hs1 : tsSorted (s.trades ++ [t]) :=
        hsAll.sublist (List.sublist_append_left _ _)
      have hstep := add_trade_spec s t hs1 hb
      have hrun : addTrades s (t :: t2 :: rest) =
          addTrades (s.add_trade t.ts t.qty t.price) (t2 :: rest) := rfl
      set c1 : Trade → Bool := fun u => decide (t.ts - s.window ≤ u.ts) with hc1
      set s1 : RollingVolume :=
        ⟨s.window, (s.trades ++ [t]).filter c1,
         qtySum ((s.trades ++ [t]).filter c1)⟩ with hs1def
      have hPairs := List.pairwise_append.mp hsAll
      -- sortedness of the state reached after the first insertion,
      -- extended by the remaining trades
      have hsorted1 : tsSorted (s1.trades ++ (t2 :: rest)) := by
        apply List.pairwise_append.mpr
        refine ⟨hs1.sublist (List.filter_sublist _), hPairs.2.1, ?_⟩
        intro a ha b hb2
        exact hPairs.2.2 a (List.mem_of_mem_filter ha) b hb2
      have hIH := ih s1 (by simp) hsorted1 rfl
      rw [hrun, hstep, hIH]
      -- collapse the double filter into a single filter at the final cutoff
      have hlast : latestTs (t :: t2 :: rest) = latestTs (t2 :: rest) :=
        latestTs_cons_cons t t2 rest
      set c2 : Trade → Bool :=
        fun u => decide (latestTs (t2 :: rest) - s.window ≤ u.ts) with hc2
      have htle : t.ts ≤ latestTs (t2 :: rest) := by
        have hmem : (t2 :: rest).getLastD ⟨0, 0, 0⟩ ∈ t2 :: rest :=
          getLastD_cons_mem rest t2 ⟨0, 0, 0⟩
        exact hPairs.2.2 t (by simp) _ hmem
      have hcc : ∀ u : Trade, (c2 u && c1 u) = c2 u := by
        intro u
        rw [hc1, hc2]
        by_cases h2 : latestTs (t2 :: rest) - s.window ≤ u.ts
        · have h1u : t.ts - s.window ≤ u.ts := by linarith
          simp only [decide_eq_true h2, decide_eq_true h1u, Bool.and_self]
        · simp only [decide_eq_false h2, Bool.false_and]
      have hff : ((s.trades ++ [t]).filter c1).filter c2 =
          (s.trades ++ [t]).filter c2 := by
        rw [List.filter_filter]
        exact List.filter_congr (fun a _ => hcc a)
      have htrades : s1.trades ++ (t2 :: rest) =
          ((s.trades ++ [t]).filter c1) ++ (t2 :: rest) := rfl
      have hfinal : (s1.trades ++ (t2 :: rest)).filter c2 =
          (s.trades ++ (t :: t2 :: rest)).filter c2 := by
        rw [htrades, List.filter_append, hff, ← List.filter_append, ← hsplitEq]
      have hwin : s1.window = s.window := rfl
      simp only [hwin, hlast, ← hc2, hfinal]

/-- Per-insertion description of the window state, needed for C1: adding a
sorted batch of trades to a fresh window retains exactly the trades at or
after the final cutoff, with `total_volume` equal to their quantity sum. -/
theorem addTrades_init_spec (w : ℚ) (l : List Trade) (hs : tsSorted l)
    (hne : l ≠ []) :
    addTrades (RollingVolume.init w) l =
      ⟨w, l.filter (fun u => decide (latestTs l - w ≤ u.ts)),
       qtySum (l.filter (fun u => decide (latestTs l - w ≤ u.ts)))⟩ := by
  have h := addTrades_spec l (RollingVolume.init w) hne (by simpa using hs) rfl
  simpa using h

/-- C1: for every non-decreasing-timestamp trade sequence, after each
insertion `total_volume()` equals the sum of the quantities of the retained
trades, which are exactly those with `ts ≥ latest_ts - window`; every
strictly older trade has been evicted.  (Quantifying over all sorted input
lists covers every prefix, i.e. the state after each insertion.) -/
theorem C1_window_correctness (w : ℚ) (l : List Trade) (hs : tsSorted l)
    (hne : l ≠ []) :
    (addTrades (RollingVolume.init w) l).total_volume =
      qtySum (l.filter (fun u => decide (latestTs l - w ≤ u.ts))) ∧
    (addTrades (RollingVolume.init w) l).trades =
      l.filter (fun u => decide (latestTs l - w ≤ u.ts)) ∧
    ∀ u ∈ (addTrades (RollingVolume.init w) l).trades,
      latestTs l - w ≤ u.ts := by
  rw [addTrades_init_spec w l hs hne]
  refine ⟨rfl, rfl, ?_⟩
  intro u hu
  have := List.of_mem_filter hu
  exact of_decide_eq_true this

/-- The spec's worked example: window 300, trades (0,10), (100,5), (350,7). -/
def exTrades : List Trade := [⟨0, 10, 1⟩, ⟨100, 5, 1⟩, ⟨350, 7, 2⟩]

/-- Witness for C1 at the spec's example; the final volume is 5 + 7 = 12. -/
theorem C1_window_correctness_witness :
    tsSorted exTrades ∧ exTrades ≠ [] ∧
    ((addTrades (RollingVolume.init 300) exTrades).total_volume =
        qtySum (exTrades.filter
          (fun u => decide (latestTs exTrades - 300 ≤ u.ts))) ∧
      (addTrades (RollingVolume.init 300) exTrades).trades =
        exTrades.filter (fun u => decide (latestTs exTrades - 300 ≤ u.ts)) ∧
      ∀ u ∈ (addTrades (RollingVolume.init 300) exTrades).trades,
        latestTs exTrades - 300 ≤ u.ts) ∧
    (addTrades (RollingVolume.init 300) exTrades).total_volume = 12 :=
  ⟨by decide, by decide,
   C1_window_correctness 300 exTrades (by decide) (by decide),
   by norm_num [addTrades, exTrades, RollingVolume.add_trade,
     RollingVolume.evict_old, evictLoop, RollingVolume.total_volume,
     RollingVolume.init]⟩

/-! ### The quoting engine (`MMBot` in `mm_bot.py`)

`compute_and_place` is embedded as a pure function of the bot state and two
oracles describing the venue's responses: `cancelRes` (the outcome of each
`DELETE /orders/{id}`, an exception on failure) and `placeRes` (the body of
each successful `POST /orders`, `none` when the call fails or the response
carries no `id` field). -/

inductive Side where
  | buy
  | sell
deriving DecidableEq

/-- A limit order as actually submitted by `place_limit` (after its own
rounding pass). -/
structure Order where
  side : Side
  price : ℚ
  qty : ℚ
deriving DecidableEq

/-- Method `MMBot.place_limit`: rounds the price and quantity once more, and skips
the POST entirely when the rounded quantity is `≤ 0`.  The returned order
is the payload of the POST that is issued. -/
def place_limit (cfg : Config) (side : Side) (price qty : ℚ) : Option Order :=
  let p := round_price cfg price
  let q := round_qty cfg qty
  if q ≤ 0 then none else some ⟨side, p, q⟩

/-- Method `MMBot.cancel_order`: wraps the DELETE in try/except, so a venue
failure surfaces as `none` instead of an exception. -/
def cancel_order {ι : Type} (cancelRes : ι → Except Unit Unit) (oid : ι) :
    Option Unit :=
  match cancelRes oid with
  | Except.ok u => some u
  | Except.error _ => none

/-- The mutable state of `MMBot` that the quoting cycle touches: the volume
window, the tracked order ids (`self.order_ids.values()`), the position and
the last mid price. -/
structure MMBot (ι : Type) where
  volume : RollingVolume
  order_ids : List ι
  position : ℚ
  last_mid : Option ℚ

/-- Everything one call to `compute_and_place` does: the cancel attempts it
issues (in order), their outcomes, the orders it submits, and the state it
leaves behind. -/
structure CycleResult (ι : Type) where
  cancels : List ι
  cancelOutcomes : List (Option Unit)
  placements : List Order
  newState : MMBot ι

/-- Lines 124-136 of `mm_bot.py`: the per-side order quantity derived from
the rolling volume and the mid price. -/
def computeOrderQty (cfg : Config) (mid market_vol : ℚ) : ℚ :=
  let max_order_base :=
    if market_vol ≤ 0 then cfg.min_order_notional / mid
    else
      let desired_base_per_window := cfg.target_volume_share * market_vol
      let expected_fill_rate : ℚ := 1/5
      let expected_needed_base := desired_base_per_window * expected_fill_rate
      expected_needed_base / 2
  let order_notional :=
    min cfg.max_order_notional
      (max cfg.min_order_notional (max_order_base * mid))
  let order_qty := round_qty cfg (order_notional / mid)
  if order_qty * mid < cfg.min_order_notional then
    round_qty cfg (cfg.min_order_notional / mid)
  else order_qty

/-- Lines 138-140: the symmetric quote prices around the mid. -/
def quotePrices (cfg : Config) (mid : ℚ) : ℚ × ℚ :=
  (round_price cfg (mid * (1 - cfg.spread_pct / 2)),
   round_price cfg (mid * (1 + cfg.spread_pct / 2)))

/-- Lines 142-149: the position-limit clip of the desired quantity,
returning `(buy_qty, sell_qty)`. -/
def clipQuantities (cfg : Config) (position order_qty : ℚ) : ℚ × ℚ :=
  (if position + order_qty > cfg.max_position then
     max 0 (round_qty cfg (cfg.max_position - position))
   else order_qty,
   if position - order_qty < -cfg.max_position then
     max 0 (round_qty cfg (position + cfg.max_position))
   else order_qty)

/-- Method `MMBot.compute_and_place`, lines 120-164. -/
def compute_and_place {ι : Type} (cfg : Config)
    (cancelRes : ι → Except Unit Unit) (placeRes : Order → Option ι)
    (s : MMBot ι) : CycleResult ι :=
  match s.last_mid with
  | none => ⟨[], [], [], s⟩
  | some mid =>
    let market_vol := s.volume.total_volume
    let order_qty := computeOrderQty cfg mid market_vol
    let prices := quotePrices cfg mid
    let qs := clipQuantities cfg s.position order_qty
    let cancels := s.order_ids
    let outcomes := cancels.map (cancel_order cancelRes)
    let buyOrder :=
      if cfg.min_order_notional ≤ qs.1 * mid then
        place_limit cfg Side.buy prices.1 qs.1
      else none
    let sellOrder :=
      if cfg.min_order_notional ≤ qs.2 * mid then
        place_limit cfg Side.sell prices.2 qs.2
      else none
    let placements := buyOrder.toList ++ sellOrder.toList
    ⟨cancels, outcomes, placements,
     ⟨s.volume, placements.filterMap placeRes, s.position, s.last_mid⟩⟩

/-! ### Helper lemmas about the quoting cycle -/

/-- Evaluate `roundStep` once the quotient is a known integer. -/
theorem roundStep_eval (st x : ℚ) (n : ℤ) (h : x / st = (n : ℚ)) :
    roundStep st x = (n : ℚ) * st := by
  rw [roundStep, h, truncQ_intCast]

/-- Evaluate `roundStep` from floor bounds on a non-negative quotient. -/
theorem roundStep_eval_floor (st x : ℚ) (n : ℤ) (hq0 : 0 ≤ x / st)
    (h1 : (n : ℚ) ≤ x / st) (h2 : x / st < n + 1) :
    roundStep st x = (n : ℚ) * st := by
  unfold roundStep truncQ
  rw [if_pos hq0]
  have hfl : ⌊x / st⌋ = n := Int.floor_eq_iff.mpr ⟨h1, h2⟩
  rw [hfl]

theorem roundStep_ite (st : ℚ) (c : Prop) [Decidable c] (x y : ℚ) :
    roundStep st (if c then roundStep st x else roundStep st y) =
      (if c then roundStep st x else roundStep st y) := by
  by_cases h : c
  · simp [h, roundStep_idem]
  · simp [h, roundStep_idem]

theorem roundStep_clip_branch (st : ℚ) (c : Prop) [Decidable c] (x oq : ℚ)
    (hoq : roundStep st oq = oq) :
    roundStep st (if c then max 0 (roundStep st x) else oq) =
      (if c then max 0 (roundStep st x) else oq) := by
  by_cases h : c
  · simp [h, roundStep_max0_fixed]
  · simp [h, hoq]

/-- The sized order quantity is already a multiple of the lot step. -/
theorem computeOrderQty_round_fixed (cfg : Config) (mid v : ℚ) :
    round_qty cfg (computeOrderQty cfg mid v) = computeOrderQty cfg mid v := by
  simp only [computeOrderQty, round_qty]
  exact roundStep_ite _ _ _ _

/-- The clipped quantities are already multiples of the lot step, provided
the incoming order quantity is. -/
theorem clip_round_fixed (cfg : Config) (pos oq : ℚ)
    (hoq : round_qty cfg oq = oq) :
    round_qty cfg (clipQuantities cfg pos oq).1 =
      (clipQuantities cfg pos oq).1 ∧
    round_qty cfg (clipQuantities cfg pos oq).2 =
      (clipQuantities cfg pos oq).2 := by
  simp only [clipQuantities, round_qty] at hoq ⊢
  exact ⟨roundStep_clip_branch _ _ _ _ hoq, roundStep_clip_branch _ _ _ _ hoq⟩

/-- Any order the cycle submits is one of the two candidate orders, and its
side's gate (`clipped_qty * mid ≥ min_notional`) held. -/
theorem placement_cases {ι : Type} (cfg : Config)
    (f : ι → Except Unit Unit) (p : Order → Option ι) (s : MMBot ι)
    (mid : ℚ) (h : s.last_mid = some mid) (o : Order)
    (ho : o ∈ (compute_and_place cfg f p s).placements) :
    (o = ⟨Side.buy, round_price cfg (quotePrices cfg mid).1,
          round_qty cfg (clipQuantities cfg s.position
            (computeOrderQty cfg mid s.volume.total_volume)).1⟩ ∧
       cfg.min_order_notional ≤ (clipQuantities cfg s.position
         (computeOrderQty cfg mid s.volume.total_volume)).1 * mid) ∨
    (o = ⟨Side.sell, round_price cfg (quotePrices cfg mid).2,
          round_qty cfg (clipQuantities cfg s.position
            (computeOrderQty cfg mid s.volume.total_volume)).2⟩ ∧
       cfg.min_order_notional ≤ (clipQuantities cfg s.position
         (computeOrderQty cfg mid s.volume.total_volume)).2 * mid) := by
  simp only [compute_and_place, h] at ho
  rcases List.mem_append.mp ho with h1 | h1
  · left
    by_cases hg : cfg.min_order_notional ≤
        (clipQuantities cfg s.position
          (computeOrderQty cfg mid s.volume.total_volume)).1 * mid
    · refine ⟨?_, hg⟩
      simp only [if_pos hg, place_limit] at h1
      split at h1
      · simp at h1
      · simpa using h1
    · simp [if_neg hg] at h1
  · right
    by_cases hg : cfg.min_order_notional ≤
        (clipQuantities cfg s.position
          (computeOrderQty cfg mid s.volume.total_volume)).2 * mid
    · refine ⟨?_, hg⟩
      simp only [if_pos hg, place_limit] at h1
      split at h1
      · simp at h1
      · simpa using h1
    · simp [if_neg hg] at h1

/-! ### C7: no market snapshot yet means the cycle is a no-op -/

/-- C7: with no mid price yet, `compute_and_place` skips entirely: no
cancels, no cancel outcomes, no submissions, state untouched. -/
theorem C7_skip_without_snapshot {ι : Type} (cfg : Config)
    (f : ι → Except Unit Unit) (p : Order → Option ι) (s : MMBot ι)
    (h : s.last_mid = none) :
    compute_and_place cfg f p s = ⟨[], [], [], s⟩ := by
  simp [compute_and_place, h]

/-- A bot that has not yet received any snapshot. -/
def exNoMidBot : MMBot ℕ := ⟨RollingVolume.init 300, [], 0, none⟩

theorem C7_skip_without_snapshot_witness :
    exNoMidBot.last_mid = none ∧
    compute_and_place defaultConfig (fun _ => Except.ok ())
      (fun _ => none) exNoMidBot = ⟨[], [], [], exNoMidBot⟩ :=
  ⟨rfl, C7_skip_without_snapshot defaultConfig _ _ exNoMidBot rfl⟩

/-! ### C6: cancel failures never block the rest of the cycle -/

/-- C6: the cancel attempts of a cycle are exactly the tracked ids,
regardless of the cancel oracle; the submissions and the final state are
independent of the cancel oracle; and the tracked set is rebuilt purely
from this cycle's successful submissions. -/
theorem C6_cancel_failures_harmless {ι : Type} (cfg : Config)
    (f g : ι → Except Unit Unit) (p : Order → Option ι) (s : MMBot ι)
    (mid : ℚ) (h : s.last_mid = some mid) :
    (compute_and_place cfg f p s).cancels = s.order_ids ∧
    (compute_and_place cfg f p s).placements =
      (compute_and_place cfg g p s).placements ∧
    (compute_and_place cfg f p s).newState =
      (compute_and_place cfg g p s).newState ∧
    (compute_and_place cfg f p s).newState.order_ids =
      ((compute_and_place cfg f p s).placements).filterMap p := by
  refine ⟨?_, ?_, ?_, ?_⟩ <;> simp [compute_and_place, h]

/-- Oracle making every cancel fail. -/
def exCancelFail : ℕ → Except Unit Unit := fun _ => Except.error ()

/-- Oracle making every cancel succeed. -/
def exCancelOk : ℕ → Except Unit Unit := fun _ => Except.ok ()

/-- Oracle for a venue that accepts no order (every POST fails). -/
def exPlaceNone : Order → Option ℕ := fun _ => none

/-- A bot tracking two resting orders with a known mid of 0.1. -/
def exMidBot : MMBot ℕ := ⟨RollingVolume.init 300, [17, 42], 0, some (1/10)⟩

theorem C6_cancel_failures_harmless_witness :
    exMidBot.last_mid = some (1/10) ∧
    ((compute_and_place defaultConfig exCancelFail exPlaceNone
        exMidBot).cancels = exMidBot.order_ids ∧
     (compute_and_place defaultConfig exCancelFail exPlaceNone
        exMidBot).placements =
       (compute_and_place defaultConfig exCancelOk exPlaceNone
          exMidBot).placements ∧
     (compute_and_place defaultConfig exCancelFail exPlaceNone
        exMidBot).newState =
       (compute_and_place defaultConfig exCancelOk exPlaceNone
          exMidBot).newState ∧
     (compute_and_place defaultConfig exCancelFail exPlaceNone
        exMidBot).newState.order_ids =
       ((compute_and_place defaultConfig exCancelFail exPlaceNone
          exMidBot).placements).filterMap exPlaceNone) :=
  ⟨rfl, C6_cancel_failures_harmless defaultConfig exCancelFail exCancelOk
    exPlaceNone exMidBot (1/10) rfl⟩

/-! ### C5: quote prices -/

/-- C5: every submitted order is priced at
`mid * (1 ∓ spread_pct/2)` rounded down to the tick step, and the spec's
example holds: mid 0.1, spread 0.002 gives 0.0999 / 0.1001 at tick 0.0001. -/
theorem C5_quote_prices {ι : Type} (cfg : Config)
    (f : ι → Except Unit Unit) (p : Order → Option ι) (s : MMBot ι)
    (mid : ℚ) (h : s.last_mid = some mid) :
    (∀ o ∈ (compute_and_place cfg f p s).placements,
       o.price = if o.side = Side.buy
         then round_price cfg (mid * (1 - cfg.spread_pct / 2))
         else round_price cfg (mid * (1 + cfg.spread_pct / 2))) ∧
    quotePrices defaultConfig (1/10) = (999/10000, 1001/10000) := by
  constructor
  · intro o ho
    rcases placement_cases cfg f p s mid h o ho with ⟨ho1, _⟩ | ⟨ho1, _⟩
    · rw [ho1]
      simp [quotePrices, round_price, roundStep_idem]
    · rw [ho1]
      simp [quotePrices, round_price, roundStep_idem]
  · have hb : roundStep (1/10000 : ℚ) (999/10000 : ℚ) =
        ((999 : ℤ) : ℚ) * (1/10000) := roundStep_eval _ _ 999 (by norm_num)
    have hs2 : roundStep (1/10000 : ℚ) (1001/10000 : ℚ) =
        ((1001 : ℤ) : ℚ) * (1/10000) := roundStep_eval _ _ 1001 (by norm_num)
    norm_num [quotePrices, round_price, defaultConfig, hb, hs2]

theorem C5_quote_prices_witness :
    exMidBot.last_mid = some (1/10) ∧
    ((∀ o ∈ (compute_and_place defaultConfig exCancelOk exPlaceNone
        exMidBot).placements,
       o.price = if o.side = Side.buy
         then round_price defaultConfig
           ((1/10) * (1 - defaultConfig.spread_pct / 2))
         else round_price defaultConfig
           ((1/10) * (1 + defaultConfig.spread_pct / 2))) ∧
     quotePrices defaultConfig (1/10) = (999/10000, 1001/10000)) :=
  ⟨rfl, C5_quote_prices defaultConfig exCancelOk exPlaceNone exMidBot
    (1/10) rfl⟩

/-! ### C4: risk clip -/

/-- C4 (amended): the clip follows the claimed unless/else rule, except
that in the clipped branches the residual capacity is additionally rounded
down to the lot step; the spec's example (950, 1000, 100) gives (50, 100). -/
theorem C4_risk_clip_amended (cfg : Config) (position order_qty : ℚ) :
    clipQuantities cfg position order_qty =
      (if position + order_qty > cfg.max_position
         then max 0 (round_qty cfg (cfg.max_position - position))
         else order_qty,
       if position - order_qty < -cfg.max_position
         then max 0 (round_qty cfg (position + cfg.max_position))
         else order_qty) ∧
    clipQuantities defaultConfig 950 100 = (50, 100) := by
  constructor
  · rfl
  · have h50 : roundStep (1/1000 : ℚ) 50 = ((50000 : ℤ) : ℚ) * (1/1000) :=
      roundStep_eval _ _ 50000 (by norm_num)
    norm_num [clipQuantities, round_qty, defaultConfig, h50]

/-- C4 counterexample to the claim as stated: with the default lot step
0.001, position 999.9995 and desired quantity 100, the code clips the buy
side to `round_qty(0.0005) = 0`, while the claim's formula
`max(0, max_position - position)` predicts 0.0005. -/
theorem C4_risk_clip_counterexample :
    clipQuantities defaultConfig (1999999/2000) 100 = (0, 100) ∧
    max (0 : ℚ) (defaultConfig.max_position - 1999999/2000) = 1/2000 ∧
    (0 : ℚ) ≠ 1/2000 := by
  refine ⟨?_, by norm_num [defaultConfig, max_def], by norm_num⟩
  have h0 : roundStep (1/1000 : ℚ) (1/2000 : ℚ) = ((0 : ℤ) : ℚ) * (1/1000) :=
    roundStep_eval_floor _ _ 0 (by norm_num) (by norm_num) (by norm_num)
  norm_num [clipQuantities, round_qty, defaultConfig, h0, max_def]

/-! ### C3: quantity sizing -/

/-- The quantity-sizing rule exactly as the claim words it: fallback
`min_notional / mid` when the rolling volume is non-positive, otherwise
`target_volume_share * rolling_volume * expected_fill_rate / 2` with the
fill rate fixed at 0.2; the notional clamped to
`[min_notional, max_notional]` (written `max lo (min hi x)`); quantity
floored to the lot step, with the final min-notional rescue. -/
def specOrderQty (cfg : Config) (mid rolling_volume : ℚ) : ℚ :=
  let base :=
    if rolling_volume ≤ 0 then cfg.min_order_notional / mid
    else cfg.target_volume_share * rolling_volume * (1/5) / 2
  let notional :=
    max cfg.min_order_notional (min cfg.max_order_notional (base * mid))
  let q := round_qty cfg (notional / mid)
  if q * mid < cfg.min_order_notional then
    round_qty cfg (cfg.min_order_notional / mid)
  else q

/-- C3: the code's sizing agrees with the claim's description whenever the
configured notional interval is non-degenerate. -/
theorem C3_order_qty_formula (cfg : Config) (mid vol : ℚ)
    (hmm : cfg.min_order_notional ≤ cfg.max_order_notional) :
    computeOrderQty cfg mid vol = specOrderQty cfg mid vol := by
  simp only [computeOrderQty, specOrderQty]
  rw [min_max_distrib_left, min_eq_right hmm]

theorem C3_order_qty_formula_witness :
    defaultConfig.min_order_notional ≤ defaultConfig.max_order_notional ∧
    computeOrderQty defaultConfig (1/10) 0 = specOrderQty defaultConfig (1/10) 0 :=
  ⟨by norm_num [defaultConfig],
   C3_order_qty_formula defaultConfig (1/10) 0 (by norm_num [defaultConfig])⟩

/-! ### C2: notional bounds -/

/-- The clamped notional is positive when the interval is sensible. -/
theorem clamp_pos (lo hi x : ℚ) (hlo : 0 < lo) (hlohi : lo ≤ hi) :
    0 < min hi (max lo x) :=
  lt_min (lt_of_lt_of_le hlo hlohi) (lt_of_lt_of_le hlo (le_max_left _ _))

/-- Rounding `y / mid` down to the step and scaling back by `mid` cannot
exceed `y`. -/
theorem roundStep_div_mul_le (st mid y : ℚ) (hstep : 0 < st) (hmid : 0 < mid)
    (hy : 0 ≤ y) : roundStep st (y / mid) * mid ≤ y := by
  have h1 : roundStep st (y / mid) ≤ y / mid :=
    roundStep_le _ _ hstep (div_nonneg hy hmid.le)
  have h2 := mul_le_mul_of_nonneg_right h1 hmid.le
  rwa [div_mul_cancel₀ _ hmid.ne'] at h2

theorem ite_nonneg_rat (c : Prop) [Decidable c] (a b : ℚ) (ha : 0 ≤ a)
    (hb : 0 ≤ b) : 0 ≤ if c then a else b := by
  by_cases h : c <;> simp [h, ha, hb]

theorem ite_mul_le_rat (c : Prop) [Decidable c] (a b m y : ℚ)
    (ha : a * m ≤ y) (hb : b * m ≤ y) : (if c then a else b) * m ≤ y := by
  by_cases h : c <;> simp [h, ha, hb]

theorem computeOrderQty_nonneg (cfg : Config) (mid v : ℚ)
    (hstep : 0 < cfg.qty_step) (hmid : 0 < mid)
    (hmin : 0 < cfg.min_order_notional)
    (hmm : cfg.min_order_notional ≤ cfg.max_order_notional) :
    0 ≤ computeOrderQty cfg mid v := by
  simp only [computeOrderQty, round_qty]
  exact ite_nonneg_rat _ _ _
    (roundStep_nonneg _ _ hstep.le (div_nonneg hmin.le hmid.le))
    (roundStep_nonneg _ _ hstep.le
      (div_nonneg (clamp_pos _ _ _ hmin hmm).le hmid.le))

theorem computeOrderQty_mul_le (cfg : Config) (mid v : ℚ)
    (hstep : 0 < cfg.qty_step) (hmid : 0 < mid)
    (hmin : 0 < cfg.min_order_notional)
    (hmm : cfg.min_order_notional ≤ cfg.max_order_notional) :
    computeOrderQty cfg mid v * mid ≤ cfg.max_order_notional := by
  simp only [computeOrderQty, round_qty]
  exact ite_mul_le_rat _ _ _ _ _
    (le_trans (roundStep_div_mul_le _ _ _ hstep hmid hmin.le) hmm)
    (le_trans
      (roundStep_div_mul_le _ _ _ hstep hmid (clamp_pos _ _ _ hmin hmm).le)
      (min_le_left _ _))

/-- Risk clipping never increases a (non-negative) desired quantity. -/
theorem clip_le (cfg : Config) (pos oq : ℚ) (hstep : 0 < cfg.qty_step)
    (hoq : 0 ≤ oq) :
    (clipQuantities cfg pos oq).1 ≤ oq ∧
    (clipQuantities cfg pos oq).2 ≤ oq := by
  simp only [clipQuantities, round_qty]
  constructor
  · split
    · rename_i hcond
      have hr : roundStep cfg.qty_step (cfg.max_position - pos) ≤ oq := by
        rcases le_or_lt 0 (cfg.max_position - pos) with hx | hx
        · exact le_trans (roundStep_le _ _ hstep hx) (by linarith)
        · exact le_trans (roundStep_nonpos _ _ hstep.le hx.le) hoq
      exact max_le hoq hr
    · exact le_refl oq
  · split
    · rename_i hcond
      have hr : roundStep cfg.qty_step (pos + cfg.max_position) ≤ oq := by
        rcases le_or_lt 0 (pos + cfg.max_position) with hx | hx
        · exact le_trans (roundStep_le _ _ hstep hx) (by linarith)
        · exact le_trans (roundStep_nonpos _ _ hstep.le hx.le) hoq
      exact max_le hoq hr
    · exact le_refl oq

/-- C2 (amended): for every order the cycle submits, its notional measured
at the prevailing mid price, `qty * mid`, lies in
`[min_notional, max_notional]`; in particular a side whose mid-price
notional falls below `min_notional` is never submitted, and no rolling
volume, however large, yields a submitted order with `qty * mid` above
`max_notional`.  (At the order's own limit price the bounds can fail; see
the counterexample.) -/
theorem C2_submitted_notional_bounds {ι : Type} (cfg : Config)
    (f : ι → Except Unit Unit) (p : Order → Option ι) (s : MMBot ι)
    (mid : ℚ) (h : s.last_mid = some mid) (hmid : 0 < mid)
    (hstep : 0 < cfg.qty_step) (hmin : 0 < cfg.min_order_notional)
    (hmm : cfg.min_order_notional ≤ cfg.max_order_notional) :
    ∀ o ∈ (compute_and_place cfg f p s).placements,
      cfg.min_order_notional ≤ o.qty * mid ∧
      o.qty * mid ≤ cfg.max_order_notional := by
  intro o ho
  have hq0 : 0 ≤ computeOrderQty cfg mid s.volume.total_volume :=
    computeOrderQty_nonneg cfg mid _ hstep hmid hmin hmm
  have hqle : computeOrderQty cfg mid s.volume.total_volume * mid ≤
      cfg.max_order_notional :=
    computeOrderQty_mul_le cfg mid _ hstep hmid hmin hmm
  have hclip := clip_le cfg s.position _ hstep hq0
  have hfix := clip_round_fixed cfg s.position _
    (computeOrderQty_round_fixed cfg mid s.volume.total_volume)
  rcases placement_cases cfg f p s mid h o ho with ⟨ho1, hg⟩ | ⟨ho1, hg⟩
  · have hqty : o.qty = (clipQuantities cfg s.position
        (computeOrderQty cfg mid s.volume.total_volume)).1 := by
      rw [ho1]; exact hfix.1
    constructor
    · rw [hqty]; exact hg
    · rw [hqty]
      exact le_trans (mul_le_mul_of_nonneg_right hclip.1 hmid.le) hqle
  · have hqty : o.qty = (clipQuantities cfg s.position
        (computeOrderQty cfg mid s.volume.total_volume)).2 := by
      rw [ho1]; exact hfix.2
    constructor
    · rw [hqty]; exact hg
    · rw [hqty]
      exact le_trans (mul_le_mul_of_nonneg_right hclip.2 hmid.le) hqle

theorem C2_submitted_notional_bounds_witness :
    exMidBot.last_mid = some (1/10) ∧ (0 : ℚ) < 1/10 ∧
    0 < defaultConfig.qty_step ∧ 0 < defaultConfig.min_order_notional ∧
    defaultConfig.min_order_notional ≤ defaultConfig.max_order_notional ∧
    ∀ o ∈ (compute_and_place defaultConfig exCancelOk exPlaceNone
        exMidBot).placements,
      defaultConfig.min_order_notional ≤ o.qty * (1/10) ∧
      o.qty * (1/10) ≤ defaultConfig.max_order_notional :=
  ⟨rfl, by norm_num, by norm_num [defaultConfig],
   by norm_num [defaultConfig], by norm_num [defaultConfig],
   C2_submitted_notional_bounds defaultConfig exCancelOk exPlaceNone exMidBot
     (1/10) rfl (by norm_num) (by norm_num [defaultConfig])
     (by norm_num [defaultConfig]) (by norm_num [defaultConfig])⟩

/-! ### Concrete evaluation of a default-config cycle at mid 0.1 -/

theorem roundQty_50_default : round_qty defaultConfig (50 : ℚ) = 50 := by
  have h := roundStep_eval (1/1000 : ℚ) 50 50000 (by norm_num)
  norm_num at h
  simpa [round_qty, defaultConfig] using h

theorem roundPrice_999_default :
    round_price defaultConfig (999/10000 : ℚ) = 999/10000 := by
  have h := roundStep_eval (1/10000 : ℚ) (999/10000) 999 (by norm_num)
  norm_num at h
  simpa [round_price, defaultConfig] using h

theorem roundPrice_1001_default :
    round_price defaultConfig (1001/10000 : ℚ) = 1001/10000 := by
  have h := roundStep_eval (1/10000 : ℚ) (1001/10000) 1001 (by norm_num)
  norm_num at h
  simpa [round_price, defaultConfig] using h

theorem quotePrices_default_eval :
    quotePrices defaultConfig (1/10) = (999/10000, 1001/10000) := by
  have hb : roundStep (1/10000 : ℚ) (999/10000 : ℚ) =
      ((999 : ℤ) : ℚ) * (1/10000) := roundStep_eval _ _ 999 (by norm_num)
  have hs2 : roundStep (1/10000 : ℚ) (1001/10000 : ℚ) =
      ((1001 : ℤ) : ℚ) * (1/10000) := roundStep_eval _ _ 1001 (by norm_num)
  norm_num [quotePrices, round_price, defaultConfig, hb, hs2]

theorem computeOrderQty_default_eval :
    computeOrderQty defaultConfig (1/10) 0 = 50 := by
  have h50 : roundStep (1/1000 : ℚ) (50 : ℚ) = ((50000 : ℤ) : ℚ) * (1/1000) :=
    roundStep_eval _ _ 50000 (by norm_num)
  norm_num [computeOrderQty, round_qty, defaultConfig, h50, min_def, max_def]

theorem clip_default_eval : clipQuantities defaultConfig 0 50 = (50, 50) := by
  norm_num [clipQuantities, defaultConfig]

theorem place_buy_default_eval :
    place_limit defaultConfig Side.buy (999/10000) 50 =
      some ⟨Side.buy, 999/10000, 50⟩ := by
  simp only [place_limit, roundPrice_999_default, roundQty_50_default]
  norm_num

theorem place_sell_default_eval :
    place_limit defaultConfig Side.sell (1001/10000) 50 =
      some ⟨Side.sell, 1001/10000, 50⟩ := by
  simp only [place_limit, roundPrice_1001_default, roundQty_50_default]
  norm_num

theorem cycle_default_placements :
    (compute_and_place defaultConfig exCancelOk exPlaceNone
      exMidBot).placements =
      [⟨Side.buy, 999/10000, 50⟩, ⟨Side.sell, 1001/10000, 50⟩] := by
  simp only [compute_and_place, exMidBot, RollingVolume.total_volume,
    RollingVolume.init, computeOrderQty_default_eval, clip_default_eval,
    quotePrices_default_eval, place_buy_default_eval, place_sell_default_eval]
  norm_num [defaultConfig, place_buy_default_eval, place_sell_default_eval]

/-- C2 counterexample to the claim as stated: at the default configuration
with mid 0.1 and empty rolling volume, the cycle submits a buy order at
limit price 0.0999 with quantity 50, whose notional at its own limit price
is 4.995, strictly below `min_notional = 5`.  (The submission gate checks
`qty * mid`, not `qty * limit_price`.) -/
theorem C2_notional_counterexample :
    (compute_and_place defaultConfig exCancelOk exPlaceNone
      exMidBot).placements =
      [⟨Side.buy, 999/10000, 50⟩, ⟨Side.sell, 1001/10000, 50⟩] ∧
    (50 : ℚ) * (999/10000) < defaultConfig.min_order_notional :=
  ⟨cycle_default_placements, by norm_num [defaultConfig]⟩

/-! ### C9: the position is never modified -/

/-- The externally triggered activities of the bot: a trade message, an
orderbook message (`ws_consume` dispatch), or one quoting cycle. -/
inductive Event (ι : Type) where
  | trade (ts qty price : ℚ)
  | orderbook (bestBid bestAsk : ℚ)
  | cycle (cancelRes : ι → Except Unit Unit) (placeRes : Order → Option ι)

/-- Method `MMBot.on_trade`. -/
def on_trade {ι : Type} (s : MMBot ι) (ts qty price : ℚ) : MMBot ι :=
  { s with volume := s.volume.add_trade ts qty price }

/-- Method `MMBot.on_orderbook`. -/
def on_orderbook {ι : Type} (s : MMBot ι) (bestBid bestAsk : ℚ) : MMBot ι :=
  { s with last_mid := some ((bestBid + bestAsk) / 2) }

/-- One event dispatched against the bot state. -/
def stepEvent {ι : Type} (cfg : Config) (s : MMBot ι) : Event ι → MMBot ι
  | Event.trade ts qty price => on_trade s ts qty price
  | Event.orderbook b a => on_orderbook s b a
  | Event.cycle f p => (compute_and_place cfg f p s).newState

/-- Constructor `MMBot.__init__`: empty window, no tracked orders, zero position, no
snapshot yet. -/
def initBot {ι : Type} (cfg : Config) : MMBot ι :=
  ⟨RollingVolume.init cfg.volume_window, [], 0, none⟩

/-- Run a whole event history. -/
def runEvents {ι : Type} (cfg : Config) (s : MMBot ι) (es : List (Event ι)) :
    MMBot ι :=
  es.foldl (stepEvent cfg) s

theorem stepEvent_position {ι : Type} (cfg : Config) (s : MMBot ι)
    (e : Event ι) : (stepEvent cfg s e).position = s.position := by
  cases e with
  | trade ts qty price => rfl
  | orderbook b a => rfl
  | cycle f p =>
    cases hsm : s.last_mid <;> simp [stepEvent, compute_and_place, hsm]

theorem runEvents_position {ι : Type} (cfg : Config) (es : List (Event ι)) :
    ∀ s : MMBot ι, (runEvents cfg s es).position = s.position := by
  induction es with
  | nil => intro s; rfl
  | cons e rest ih =>
    intro s
    have h1 : runEvents cfg s (e :: rest) = runEvents cfg (stepEvent cfg s e) rest := rfl
    rw [h1, ih (stepEvent cfg s e), stepEvent_position]

/-- C9: the position starts at 0 and no event or cycle ever modifies it, so
it trivially stays within `±max_position`; consequently, whenever the
desired order quantity is at most `max_position`, neither side is clipped. -/
theorem C9_position_invariant {ι : Type} (cfg : Config) (es : List (Event ι))
    (hmp : 0 ≤ cfg.max_position) :
    (runEvents cfg (initBot cfg : MMBot ι) es).position = 0 ∧
    (∀ (s : MMBot ι) (e : Event ι),
      (stepEvent cfg s e).position = s.position) ∧
    -cfg.max_position ≤ (runEvents cfg (initBot cfg : MMBot ι) es).position ∧
    (runEvents cfg (initBot cfg : MMBot ι) es).position ≤ cfg.max_position ∧
    (∀ oq : ℚ, oq ≤ cfg.max_position →
      clipQuantities cfg (runEvents cfg (initBot cfg : MMBot ι) es).position
        oq = (oq, oq)) := by
  have hpos : (runEvents cfg (initBot cfg : MMBot ι) es).position = 0 :=
    runEvents_position cfg es (initBot cfg)
  refine ⟨hpos, fun s e => stepEvent_position cfg s e, ?_, ?_, ?_⟩
  · rw [hpos]; linarith
  · rw [hpos]; linarith
  · intro oq hoq
    rw [hpos]
    have h1 : ¬ cfg.max_position < oq := not_lt.mpr hoq
    simp [clipQuantities, h1]

/-- An example event history: one trade, one orderbook update, one cycle. -/
def exEvents : List (Event ℕ) :=
  [Event.trade 0 10 1, Event.orderbook (99/1000) (101/1000),
   Event.cycle exCancelOk exPlaceNone]

theorem C9_position_invariant_witness :
    (0 : ℚ) ≤ defaultConfig.max_position ∧
    ((runEvents defaultConfig (initBot defaultConfig : MMBot ℕ)
        exEvents).position = 0 ∧
     (∀ (s : MMBot ℕ) (e : Event ℕ),
       (stepEvent defaultConfig s e).position = s.position) ∧
     -defaultConfig.max_position ≤
       (runEvents defaultConfig (initBot defaultConfig : MMBot ℕ)
         exEvents).position ∧
     (runEvents defaultConfig (initBot defaultConfig : MMBot ℕ)
       exEvents).position ≤ defaultConfig.max_position ∧
     (∀ oq : ℚ, oq ≤ defaultConfig.max_position →
       clipQuantities defaultConfig
         (runEvents defaultConfig (initBot defaultConfig : MMBot ℕ)
           exEvents).position oq = (oq, oq))) :=
  ⟨by norm_num [defaultConfig],
   C9_position_invariant defaultConfig exEvents (by norm_num [defaultConfig])⟩

/-! ### C10: `total_volume` reads without evicting -/

/-- C10: `total_volume` is a pure projection of the stored running sum — it
never evicts — and eviction happens only in `add_trade`, keyed to the newest
trade's timestamp rather than the present clock.  Concretely: after a single
trade at ts 0 in a 300 s window, the state still holds that trade, and at
present time 1000 the reported volume is 10 even though every retained trade
is strictly older than the window relative to that present moment (the
in-window sum at time 1000 is 0). -/
theorem C10_total_volume_no_eviction :
    (∀ s : RollingVolume, s.total_volume = s.base_volume) ∧
    (RollingVolume.init 300).add_trade 0 10 1 = ⟨300, [⟨0, 10, 1⟩], 10⟩ ∧
    ((RollingVolume.init 300).add_trade 0 10 1).total_volume = 10 ∧
    qtySum ((((RollingVolume.init 300).add_trade 0 10 1).trades).filter
      (fun t => decide ((1000 : ℚ) - 300 ≤ t.ts))) = 0 ∧
    (((RollingVolume.init 300).add_trade 0 10 1).trades).all
      (fun t => decide (t.ts < 1000 - 300)) = true := by
  have hst : (RollingVolume.init 300).add_trade 0 10 1 =
      ⟨300, [⟨0, 10, 1⟩], 10⟩ := by
    norm_num [RollingVolume.add_trade, RollingVolume.evict_old, evictLoop,
      RollingVolume.init]
  refine ⟨fun s => rfl, hst, ?_, ?_, ?_⟩
  · rw [hst]
    rfl
  · rw [hst]
    norm_num [qtySum]
  · rw [hst]
    norm_num

end MMVerify
